import Mathlib

/-!
Verification of the `simple-reactive-store` state manager (`src/store.js`,
the upgraded universal store) against its specification.

The embedding models:
  * JSON-like values (`JVal`) and the state document as an insertion-ordered
    association list, matching JavaScript object semantics for string keys;
  * `JSON.stringify` as used by the change detector and the history gate;
  * the `dispatch` action parse (`type.split('-')`), the history stack
    (`pushHistory` / `applyHistory` / `undo` / `redo` / `jumpTo`), the
    `watch` key watcher, and the `Set`-backed listener registry;
  * a small heap model of object references for the copy-isolation facts
    (`structuredClone` allocates fresh cells; `notify` passes the live
    state object to watch-all listeners).
-/

namespace SRS

/-- JSON-representable JavaScript values (functions and symbols are out of
scope; numbers restricted to integers, which covers every payload the
specification exercises). -/
inductive JVal where
  | undef
  | null
  | bool (b : Bool)
  | num (n : Int)
  | str (s : String)
  | arr (elems : List JVal)
  | obj (fields : List (String × JVal))

/-- The state document: a JavaScript object, i.e. an insertion-ordered
association list from string keys to values. -/
abbrev StateDoc := List (String × JVal)

/-- Property read `state[key]`: a missing key yields `undefined`. -/
def objGet : StateDoc → String → JVal
  | [], _ => .undef
  | p :: rest, k => if p.1 = k then p.2 else objGet rest k

/-- Property write `state[key] = v`: an existing key is overwritten in
place (keeping its position), a new key is appended, as JavaScript
object assignment does for string keys. -/
def objSet : StateDoc → String → JVal → StateDoc
  | [], k, v => [(k, v)]
  | p :: rest, k, v => if p.1 = k then (k, v) :: rest else p :: objSet rest k v

theorem objGet_objSet_self (o : StateDoc) (k : String) (v : JVal) :
    objGet (objSet o k v) k = v := by
  induction o with
  | nil => simp [objSet, objGet]
  | cons p rest ih =>
    by_cases h : p.1 = k
    · simp [objSet, h, objGet]
    · simp [objSet, h, objGet, ih]

/-- Character-wise JSON escaping of quote and backslash
(control-character escapes are not needed for the keys and values
exercised here). -/
def escapeChars : List Char → List Char
  | [] => []
  | c :: rest =>
    (if c = '"' then ['\\', '"'] else if c = '\\' then ['\\', '\\'] else [c]) ++ escapeChars rest

/-- JSON string quoting. -/
def jsonQuote (s : String) : String :=
  "\"" ++ String.mk (escapeChars s.data) ++ "\""

mutual

/-- `JSON.stringify` of a value.  `undefined` renders as `null`, which is
its serialization inside arrays; as an object member it is omitted by
`memberStrings`, and the stores compared by the code are always objects,
so a top-level `undefined` never reaches a comparison. -/
def stringifyVal : JVal → String
  | .undef => "null"
  | .null => "null"
  | .bool true => "true"
  | .bool false => "false"
  | .num n => toString n
  | .str s => jsonQuote s
  | .arr xs => "[" ++ String.intercalate "," (elemStrings xs) ++ "]"
  | .obj fs => "\x7b" ++ String.intercalate "," (memberStrings fs) ++ "\x7d"

/-- Serialized array elements, in order. -/
def elemStrings : List JVal → List String
  | [] => []
  | x :: rest => stringifyVal x :: elemStrings rest

/-- Serialized object members, in order; members holding `undefined` are
omitted, as `JSON.stringify` does. -/
def memberStrings : List (String × JVal) → List String
  | [] => []
  | (_, .undef) :: rest => memberStrings rest
  | (k, v) :: rest => (jsonQuote k ++ ":" ++ stringifyVal v) :: memberStrings rest

end

/-- `JSON.stringify(state)` for a whole state document (an object). -/
def stringifyObj (st : StateDoc) : String := stringifyVal (.obj st)

/-- `typeof next === 'object' && next !== null`: arrays and plain objects. -/
def isCompositeNonNull : JVal → Bool
  | .obj _ => true
  | .arr _ => true
  | _ => false

/-- Strict inequality `next !== prev` as evaluated on the watcher's
non-composite branch: `next` is then a primitive, so `!==` is value
inequality against a same-type primitive and `true` against any other
type of value. -/
def strictNeq : JVal → JVal → Bool
  | .undef, .undef => false
  | .null, .null => false
  | .bool a, .bool b => !(a == b)
  | .num a, .num b => !(a == b)
  | .str a, .str b => !(a == b)
  | _, _ => true

/-- The change detector used by `watch` (src/store.js lines 151-153):
deep structural comparison via `JSON.stringify` when the next value is a
non-null composite, strict `!==` comparison otherwise. -/
def detectorChanged (next prev : JVal) : Bool :=
  if isCompositeNonNull next
  then stringifyVal next != stringifyVal prev
  else strictNeq next prev

/-- JavaScript `type.split('-')` on the character sequence of the action
name: splits at every `'-'`, keeping empty pieces, and yields `[[]]` on
the empty string. -/
def splitDash : List Char → List (List Char)
  | [] => [[]]
  | c :: cs =>
    let r := splitDash cs
    if c = '-' then [] :: r
    else
      match r with
      | [] => [[c]]
      | h :: t => (c :: h) :: t

/-- Inverse of `splitDash`: re-joins the pieces with `'-'`. -/
def joinDash : List (List Char) → List Char
  | [] => []
  | [x] => x
  | x :: y :: rest => x ++ '-' :: joinDash (y :: rest)

theorem splitDash_ne_nil (l : List Char) : splitDash l ≠ [] := by
  cases l with
  | nil => simp [splitDash]
  | cons c cs =>
    simp only [splitDash]
    by_cases h : c = '-'
    · simp [h]
    · simp only [h, if_false]
      cases splitDash cs <;> simp

theorem joinDash_splitDash (l : List Char) : joinDash (splitDash l) = l := by
  induction l with
  | nil => simp [splitDash, joinDash]
  | cons c cs ih =>
    by_cases h : c = '-'
    · subst h
      obtain ⟨r0, r1, hr⟩ : ∃ r0 r1, splitDash cs = r0 :: r1 := by
        cases hs : splitDash cs with
        | nil => exact absurd hs (splitDash_ne_nil cs)
        | cons a b => exact ⟨a, b, rfl⟩
      simp only [splitDash, if_pos rfl, hr]
      rw [hr] at ih
      simp [joinDash, ih]
    · obtain ⟨r0, r1, hr⟩ : ∃ r0 r1, splitDash cs = r0 :: r1 := by
        cases hs : splitDash cs with
        | nil => exact absurd hs (splitDash_ne_nil cs)
        | cons a b => exact ⟨a, b, rfl⟩
      simp only [splitDash, h, if_false, hr]
      rw [hr] at ih
      cases r1 with
      | nil => simpa [joinDash] using ih
      | cons s0 s1 => simp only [joinDash] at ih ⊢; simp [← ih]

theorem splitDash_of_no_dash (l : List Char) (h : '-' ∉ l) : splitDash l = [l] := by
  induction l with
  | nil => simp [splitDash]
  | cons c cs ih =>
    have hc : c ≠ '-' := fun e => h (e ▸ List.mem_cons_self c cs)
    have hcs : '-' ∉ cs := fun e => h (List.mem_cons_of_mem c e)
    simp [splitDash, hc, ih hcs]

theorem splitDash_append (a b : List Char) (h : '-' ∉ a) :
    splitDash (a ++ '-' :: b) = a :: splitDash b := by
  induction a with
  | nil => simp [splitDash]
  | cons c cs ih =>
    have hc : c ≠ '-' := fun e => h (e ▸ List.mem_cons_self c cs)
    have hcs : '-' ∉ cs := fun e => h (List.mem_cons_of_mem c e)
    simp [splitDash, hc, ih hcs]

/-- An action name is of the documented mutation form when it is
`set-` followed by a non-empty key. -/
def IsSetForm (type : String) : Prop :=
  ∃ k : String, k ≠ "" ∧ type = "set-" ++ k

/-- The store's mutable pieces relevant to dispatch and history: the live
state document, the `__history` snapshot array and `__historyIndex`.
(Snapshots are `structuredClone`s; in this pure layer a snapshot is the
value of the document, and reference freshness is treated in the heap
layer below.) -/
structure Store where
  state : StateDoc
  history : List StateDoc
  historyIndex : Nat

/-- `getState`: returns `structuredClone(state)` — value-wise the current
document (the returned reference is fresh; see the heap layer). -/
def getState (s : Store) : StateDoc := s.state

/-- The inner `store.dispatch` mutation (src/store.js lines 108-127):
`const [verb, key] = type.split('-')`, and when `verb === 'set'` with a
non-empty `key`, `state[key] = payload`.  DOM-binding refresh and storage
sync are external collaborators without effect on the document. -/
def dispatchCore (st : StateDoc) (type : String) (payload : JVal) : StateDoc :=
  match splitDash type.data with
  | verb :: key :: _ =>
    if verb = "set".data ∧ key ≠ [] then objSet st (String.mk key) payload else st
  | _ => st

/-- `pushHistory` (src/store.js lines 461-466): snapshot the state,
`__history.splice(__historyIndex + 1)` (keep the first `index + 1`
entries), push the snapshot, increment the index. -/
def pushHistory (s : Store) : Store :=
  { s with
    history := s.history.take (s.historyIndex + 1) ++ [s.state],
    historyIndex := s.historyIndex + 1 }

/-- `applyHistory(index)` (src/store.js lines 473-480): in range, replace
the live document with a clone of `__history[index]` (and re-notify);
out of range, return without touching anything.  The index is a `Nat`
here because every call site passes a non-negative index. -/
def applyHistory (s : Store) (index : Nat) : Store :=
  if index < s.history.length then { s with state := s.history.getD index [] } else s

/-- JavaScript return values of the history-navigation entry points:
either a boolean or `undefined` (a function body without `return`). -/
inductive JsRet where
  | bool (b : Bool)
  | undef
deriving DecidableEq

/-- `store.undo` (src/store.js lines 486-491). -/
def undo (s : Store) : Store × JsRet :=
  if s.historyIndex = 0 then (s, .bool false)
  else
    let i := s.historyIndex - 1
    ({ applyHistory s i with historyIndex := i }, .bool true)

/-- `store.redo` (src/store.js lines 497-502).  The guard
`__historyIndex >= __history.length - 1` is stated with truncated `Nat`
subtraction, which agrees with the JavaScript comparison for every
reachable store (the history is never empty). -/
def redo (s : Store) : Store × JsRet :=
  if s.historyIndex ≥ s.history.length - 1 then (s, .bool false)
  else
    let i := s.historyIndex + 1
    ({ applyHistory s i with historyIndex := i }, .bool true)

/-- `store.jumpTo(index)` (src/store.js lines 511-516): guarded apply
plus index assignment; the function returns no value (`undefined`). -/
def jumpTo (s : Store) (index : Int) : Store × JsRet :=
  if 0 ≤ index ∧ index < (s.history.length : Int) then
    ({ applyHistory s index.toNat with historyIndex := index.toNat }, .undef)
  else (s, .undef)

/-- Store construction (src/store.js lines 32, 454-455, 517, with
`syncStorage` left at its default `false`, so no storage seeding):
`state = structuredClone(initialState)`,
`__history = [structuredClone(state)]`, `__historyIndex = 0`, and then
the top-level `pushHistory()` call runs before `createStore` returns. -/
def createStore (initialState : StateDoc) : Store :=
  pushHistory { state := initialState, history := [initialState], historyIndex := 0 }

/-- The public `store.dispatch` after the history hook is installed
(src/store.js lines 522-531): clone the pre-state, run the original
dispatch, then push a history snapshot exactly when the serialized state
changed and `options.skipHistory` is not set. -/
def dispatch (s : Store) (type : String) (payload : JVal) (skipHistory : Bool) : Store :=
  let st1 := dispatchCore s.state type payload
  let changed := stringifyObj s.state != stringifyObj st1
  let s1 : Store := { s with state := st1 }
  if changed && !skipHistory then pushHistory s1 else s1

/-- The closure state of one `store.watch(key, fn)` registration: the
watched key and this watcher's own `prev` copy (src/store.js line 148). -/
structure Watcher where
  key : String
  prev : JVal

/-- `watch` installation: `let prev = structuredClone(state[key])`. -/
def watchInit (st : StateDoc) (key : String) : Watcher :=
  { key := key, prev := objGet st key }

/-- One run of the subscriber installed by `watch` (src/store.js lines
149-158), executed on each notify against the already-mutated document:
when the detector reports a change, update `prev` and fire `fn(next)`
(the fired value is returned); otherwise fire nothing. -/
def watchStep (st : StateDoc) (w : Watcher) : Watcher × Option JVal :=
  let next := objGet st w.key
  if detectorChanged next w.prev then ({ w with prev := next }, some next) else (w, none)

/-- Drive a store carrying one key watcher through a list of
`dispatch(type, payload)` calls (no `skipHistory`), collecting every
value the watcher's callback receives, in order. -/
def runWatched (s : Store) (w : Watcher) : List (String × JVal) → Store × Watcher × List JVal
  | [] => (s, w, [])
  | (t, p) :: rest =>
    let s1 := dispatch s t p false
    let (w1, fired) := watchStep s1.state w
    let (s2, w2, fs) := runWatched s1 w1 rest
    (s2, w2, fired.toList ++ fs)

/-- The `listeners = new Set()` registry (src/store.js line 68), as the
ordered list of registered callbacks, identified by id; a JavaScript
`Set` holds each element at most once.  `subscribe` performs
`listeners.add(fn)`. -/
def subscribeAdd (L : List Nat) (f : Nat) : List Nat :=
  if f ∈ L then L else L ++ [f]

/-- The canceller returned by `subscribe`: `listeners.delete(fn)`. -/
def cancelDelete (L : List Nat) (f : Nat) : List Nat := L.erase f

/-- `notify`'s fan-out `listeners.forEach(fn => fn({ type, payload }))`
(src/store.js line 89): the list of invocations, one call per registered
listener, in registration order, each receiving the event. -/
def notifyInvocations (L : List Nat) (type : String) (payload : JVal) :
    List (Nat × String × JVal) :=
  L.map fun f => (f, type, payload)

/-! ### Heap layer: object references and `structuredClone`

`getState` and `notify` traffic in object references; the pure layer
above abstracts them away, so copy isolation is stated here against a
small object heap. -/

/-- Heap values: primitives inline, composite values by reference. -/
inductive HVal where
  | prim (v : JVal)
  | ref (a : Nat)

/-- A heap object: key/value fields. -/
abbrev HObj := List (String × HVal)

/-- The object heap: address `a` denotes the cell `h.getD a []`. -/
abbrev Heap := List HObj

/-- `structuredClone` of one value: primitives are copied, a reference is
deep-copied into freshly appended cells (fields first, then the copied
object itself, whose address is the length of the grown heap).  Fuel
bounds reference chasing; callers pass `heap length + 1`, enough for the
acyclic object graphs arising here. -/
def cloneVal : Nat → Heap → HVal → Heap × HVal
  | _, h, .prim v => (h, .prim v)
  | 0, h, .ref _ => (h, .prim .undef)
  | fuel+1, h, .ref a =>
    let r := (h.getD a []).foldl
      (fun acc kv =>
        let rr := cloneVal fuel acc.1 kv.2
        (rr.1, acc.2 ++ [(kv.1, rr.2)]))
      (h, ([] : HObj))
    (r.1 ++ [r.2], .ref r.1.length)

/-- The field-folding step of `cloneVal`, named for the lemmas below. -/
def cloneStep (fuel : Nat) (acc : Heap × HObj) (kv : String × HVal) : Heap × HObj :=
  let rr := cloneVal fuel acc.1 kv.2
  (rr.1, acc.2 ++ [(kv.1, rr.2)])

theorem cloneVal_succ_ref (fuel : Nat) (h : Heap) (a : Nat) :
    cloneVal (fuel + 1) h (.ref a) =
      (let r := (h.getD a []).foldl (cloneStep fuel) (h, ([] : HObj))
       (r.1 ++ [r.2], .ref r.1.length)) := rfl

theorem cloneVal_length_le (fuel : Nat) (h : Heap) (v : HVal) :
    h.length ≤ (cloneVal fuel h v).1.length := by
  induction fuel generalizing h v with
  | zero => cases v <;> simp [cloneVal]
  | succ n ih =>
    cases v with
    | prim p => simp [cloneVal]
    | ref a =>
      have key : ∀ (l : HObj) (acc : Heap × HObj),
          acc.1.length ≤ (l.foldl (cloneStep n) acc).1.length := by
        intro l
        induction l with
        | nil => intro acc; simp
        | cons kv rest ihl =>
          intro acc
          simp only [List.foldl_cons]
          exact le_trans (by simpa [cloneStep] using ih acc.1 kv.2) (ihl _)
      rw [cloneVal_succ_ref]
      simp only [List.length_append, List.length_cons]
      exact le_trans (key (h.getD a []) (h, [])) (Nat.le_succ _)

theorem foldl_cloneStep_length (fuel : Nat) (l : HObj) (acc : Heap × HObj) :
    acc.1.length ≤ (l.foldl (cloneStep fuel) acc).1.length := by
  induction l generalizing acc with
  | nil => simp
  | cons kv rest ih =>
    simp only [List.foldl_cons]
    exact le_trans (by simpa [cloneStep] using cloneVal_length_le fuel acc.1 kv.2) (ih _)

/-- `structuredClone` applied to the object at address `a`: the grown
heap and the fresh root address of the copy. -/
def structuredCloneAddr (h : Heap) (a : Nat) : Heap × Nat :=
  match cloneVal (h.length + 1) h (.ref a) with
  | (h2, .ref r) => (h2, r)
  | (h2, _) => (h2, h2.length)

theorem structuredCloneAddr_spec (h : Heap) (a : Nat) :
    h.length ≤ (structuredCloneAddr h a).2 ∧
      (structuredCloneAddr h a).1.length = (structuredCloneAddr h a).2 + 1 := by
  unfold structuredCloneAddr
  rw [cloneVal_succ_ref]
  refine ⟨?_, by simp⟩
  simpa using foldl_cloneStep_length h.length (h.getD a []) (h, [])

/-- Field read on the heap object at address `a`. -/
def hobjGet : HObj → String → HVal
  | [], _ => .prim .undef
  | p :: rest, k => if p.1 = k then p.2 else hobjGet rest k

/-- Field write on the heap object at address `a` — what a listener does
when it mutates an object it received. -/
def hobjSet : HObj → String → HVal → HObj
  | [], k, v => [(k, v)]
  | p :: rest, k, v => if p.1 = k then (k, v) :: rest else p :: hobjSet rest k v

/-- `obj[key] = v` through a reference: update the cell at address `a`. -/
def heapSetKey (h : Heap) (a : Nat) (k : String) (v : HVal) : Heap :=
  h.set a (hobjSet (h.getD a []) k v)

/-- `obj[key]` through a reference. -/
def heapGetKey (h : Heap) (a : Nat) (k : String) : HVal :=
  hobjGet (h.getD a []) k

/-- `getState` at the heap level: `structuredClone(state)` — a deep copy
rooted at a fresh address (src/store.js line 100). -/
def getStateRef (h : Heap) (stateAddr : Nat) : Heap × Nat :=
  structuredCloneAddr h stateAddr

/-- The pair of references a watch-all listener receives from `notify`
(src/store.js lines 87-92): `const prevState = structuredClone(state)`
is a fresh copy, but the first argument of `fn(state, prevState)` is the
canonical `state` object itself, passed by reference. -/
def notifyWatchAllArgs (h : Heap) (stateAddr : Nat) : Heap × Nat × Nat :=
  let pr := structuredCloneAddr h stateAddr
  (pr.1, stateAddr, pr.2)

/-! ### Helper lemmas -/

theorem string_data_inj {a b : String} (h : a.data = b.data) : a = b := by
  cases a; cases b; cases h; rfl

theorem append_data (a b : String) : (a ++ b).data = a.data ++ b.data := by
  cases a; cases b; rfl

theorem getD_append_left {α : Type} (l l' : List α) (d : α) (i : Nat) (h : i < l.length) :
    (l ++ l').getD i d = l.getD i d := by
  induction l generalizing i with
  | nil => simp at h
  | cons a rest ih =>
    cases i with
    | zero => rfl
    | succ j =>
      simp only [List.cons_append, List.getD_cons_succ]
      exact ih j (by simpa using h)

theorem getD_concat_self {α : Type} (l : List α) (x d : α) :
    (l ++ [x]).getD l.length d = x := by
  induction l with
  | nil => rfl
  | cons a rest ih =>
    rw [List.cons_append, List.length_cons, List.getD_cons_succ]
    exact ih

theorem getD_take {α : Type} (l : List α) (n i : Nat) (d : α) (h : i < n) :
    (l.take n).getD i d = l.getD i d := by
  induction l generalizing n i with
  | nil => simp
  | cons a rest ih =>
    cases n with
    | zero => omega
    | succ m =>
      cases i with
      | zero => rfl
      | succ j => simpa [List.getD_cons_succ] using ih m j (by omega)

theorem dispatchCore_set (st : StateDoc) (k : String) (v : JVal)
    (hk : k ≠ "") (hd : '-' ∉ k.data) :
    dispatchCore st ("set-" ++ k) v = objSet st k v := by
  have hdata : ("set-" ++ k).data = "set".data ++ '-' :: k.data := by
    have h1 : "set-".data = "set".data ++ ['-'] := by decide
    rw [append_data, h1, List.append_assoc, List.singleton_append]
  have hkd : k.data ≠ [] := fun e => hk (string_data_inj e)
  have hsplit : splitDash ("set-" ++ k).data = ["set".data, k.data] := by
    rw [hdata, splitDash_append _ _ (by decide), splitDash_of_no_dash _ hd]
  unfold dispatchCore
  rw [hsplit]
  simp [hkd]

theorem dispatchCore_not_set (st : StateDoc) (t : String) (p : JVal)
    (h : ¬ IsSetForm t) : dispatchCore st t p = st := by
  unfold dispatchCore
  cases hm : splitDash t.data with
  | nil => rfl
  | cons verb rest =>
    cases rest with
    | nil => rfl
    | cons key rest2 =>
      show (if verb = "set".data ∧ key ≠ [] then objSet st (String.mk key) p else st) = st
      rw [if_neg]
      rintro ⟨hverb, hkey⟩
      apply h
      have hj : joinDash (verb :: key :: rest2) = t.data := by
        rw [← hm]; exact joinDash_splitDash t.data
      have hjd : t.data = "set".data ++ '-' :: joinDash (key :: rest2) := by
        rw [← hj, hverb]; rfl
      refine ⟨String.mk (joinDash (key :: rest2)), ?_, ?_⟩
      · intro e
        have he : joinDash (key :: rest2) = [] := congrArg String.data e
        cases key with
        | nil => exact hkey rfl
        | cons c cs => cases rest2 <;> simp [joinDash] at he
      · apply string_data_inj
        rw [append_data, hjd]
        rfl

/-- Executable test for the `set-<key>` (non-empty key) action form. -/
def isSetFormB (t : String) : Bool :=
  (t.data.take 4 == "set-".data) && decide (4 < t.data.length)

theorem isSetFormB_iff (t : String) : isSetFormB t = true ↔ IsSetForm t := by
  constructor
  · intro h
    obtain ⟨h1, h2⟩ := by simpa [isSetFormB] using h
    refine ⟨String.mk (t.data.drop 4), ?_, ?_⟩
    · intro e
      have he : t.data.drop 4 = [] := congrArg String.data e
      have hle := List.drop_eq_nil_iff.mp he
      have h2' : 4 < t.data.length := h2
      omega
    · apply string_data_inj
      rw [append_data]
      have : t.data = t.data.take 4 ++ t.data.drop 4 := (List.take_append_drop 4 t.data).symm
      rw [this, h1]
      rfl
  · rintro ⟨k, hk, he⟩
    have hkd : k.data ≠ [] := fun e => hk (string_data_inj e)
    have hdata : t.data = "set-".data ++ k.data := by rw [he, append_data]
    have hlen : 4 < t.data.length := by
      rw [hdata, List.length_append]
      have hpos : 0 < k.data.length := List.length_pos.mpr hkd
      have h4 : ("set-".data).length = 4 := by decide
      rw [h4]
      omega
    have htake : t.data.take 4 = "set-".data := by
      rw [hdata]
      exact List.take_left' rfl
    simp only [isSetFormB, htake, Bool.and_eq_true, beq_iff_eq, decide_eq_true_eq]
    exact ⟨trivial, hlen⟩

instance instDecidableIsSetForm (t : String) : Decidable (IsSetForm t) :=
  decidable_of_iff (isSetFormB t = true) (isSetFormB_iff t)

theorem dispatch_state (s : Store) (t : String) (p : JVal) (b : Bool) :
    (dispatch s t p b).state = dispatchCore s.state t p := by
  unfold dispatch
  dsimp only
  split <;> rfl

theorem dispatch_changed (s : Store) (t : String) (p : JVal)
    (hch : stringifyObj s.state ≠ stringifyObj (dispatchCore s.state t p)) :
    dispatch s t p false = pushHistory { s with state := dispatchCore s.state t p } := by
  unfold dispatch
  have hb : (stringifyObj s.state != stringifyObj (dispatchCore s.state t p)) = true := by
    simpa [bne_iff_ne] using hch
  simp [hb]

theorem undo_spec (s : Store) (h0 : s.historyIndex ≠ 0)
    (hin : s.historyIndex - 1 < s.history.length) :
    undo s = ({ s with
      state := s.history.getD (s.historyIndex - 1) []
      historyIndex := s.historyIndex - 1 }, .bool true) := by
  unfold undo
  rw [if_neg h0]
  show ({ applyHistory s (s.historyIndex - 1) with
          historyIndex := s.historyIndex - 1 }, JsRet.bool true) = _
  unfold applyHistory
  rw [if_pos hin]

theorem redo_spec (s : Store) (hgt : ¬ s.historyIndex ≥ s.history.length - 1)
    (hin : s.historyIndex + 1 < s.history.length) :
    redo s = ({ s with
      state := s.history.getD (s.historyIndex + 1) []
      historyIndex := s.historyIndex + 1 }, .bool true) := by
  unfold redo
  rw [if_neg hgt]
  show ({ applyHistory s (s.historyIndex + 1) with
          historyIndex := s.historyIndex + 1 }, JsRet.bool true) = _
  unfold applyHistory
  rw [if_pos hin]

/-! ### The claims -/

/-- C1 (amended): for every non-empty key `k` containing no hyphen and
every value `v`, immediately after `dispatch('set-k', v)` the document
read by `getState()` has property `k` equal to `v`; and two `getState()`
calls never return the same object reference (each `structuredClone`
allocates a fresh root).  For a key containing a hyphen the parse
`type.split('-')` truncates at the first hyphen — see the
counterexample. -/
theorem claim1_set_key_and_copy_isolation (s : Store) (k : String) (v : JVal)
    (h : Heap) (a : Nat) (hk : k ≠ "") (hd : '-' ∉ k.data) :
    objGet (getState (dispatch s ("set-" ++ k) v false)) k = v ∧
    (getStateRef h a).2 ≠ (getStateRef (getStateRef h a).1 a).2 := by
  constructor
  · unfold getState
    rw [dispatch_state, dispatchCore_set s.state k v hk hd]
    exact objGet_objSet_self s.state k v
  · have h1 := structuredCloneAddr_spec h a
    have h2 := structuredCloneAddr_spec (structuredCloneAddr h a).1 a
    unfold getStateRef
    omega

theorem claim1_set_key_and_copy_isolation_witness :
    objGet (getState (dispatch (createStore []) ("set-" ++ "a") (JVal.num 5) false)) "a"
        = JVal.num 5 ∧
    (getStateRef [[("z", HVal.prim JVal.null)]] 0).2 ≠
      (getStateRef (getStateRef [[("z", HVal.prim JVal.null)]] 0).1 0).2 :=
  claim1_set_key_and_copy_isolation (createStore []) "a" (JVal.num 5)
    [[("z", HVal.prim JVal.null)]] 0 (by decide) (by decide)

/-- C1 counterexample: `dispatch('set-a-b', 42)` does not set property
`a-b` — `type.split('-')` truncates after the first hyphen, so property
`a` receives the payload and `a-b` stays `undefined`. -/
theorem claim1_hyphen_key_cex :
    objGet (getState (dispatch (createStore []) "set-a-b" (JVal.num 42) false)) "a-b"
        = JVal.undef ∧
    objGet (getState (dispatch (createStore []) "set-a-b" (JVal.num 42) false)) "a"
        = JVal.num 42 ∧
    JVal.undef ≠ JVal.num 42 :=
  ⟨rfl, rfl, fun hh => nomatch hh⟩

/-- C2, evaluated at the failing input: `notify` hands the watch-all
listener the canonical state object itself as its next-state argument
(the address received equals the state's address), so a listener writing
`k = 2` through that received reference changes the canonical document —
a subsequent `getState()` observes 2 where the pre-listener value was 1,
contradicting the claim that listeners only receive copies. -/
theorem claim2_watchAll_alias_eval :
    (notifyWatchAllArgs [[("k", HVal.prim (JVal.num 1))]] 0).2.1 = 0 ∧
    heapGetKey [[("k", HVal.prim (JVal.num 1))]] 0 "k" = HVal.prim (JVal.num 1) ∧
    heapGetKey
      (heapSetKey (notifyWatchAllArgs [[("k", HVal.prim (JVal.num 1))]] 0).1
        (notifyWatchAllArgs [[("k", HVal.prim (JVal.num 1))]] 0).2.1 "k"
        (HVal.prim (JVal.num 2)))
      0 "k" = HVal.prim (JVal.num 2) :=
  ⟨rfl, rfl, rfl⟩

/-- C3, evaluated on the code: for every initial state, immediately after
construction the history holds two identical snapshots of the initial
state and the current index is 1 — the seeding `[structuredClone(state)]`
is followed by the top-level `pushHistory()` call — whereas the claim
says one snapshot and index 0. -/
theorem claim3_construction_double_seed (init : StateDoc) :
    (createStore init).history = [init, init] ∧ (createStore init).historyIndex = 1 :=
  ⟨rfl, rfl⟩

/-- C4 (amended): out-of-range `undo` and `redo` return `false` and leave
the store (document, history, index) unchanged; `jumpTo` with an
out-of-range index also leaves the store unchanged but returns
`undefined` rather than a boolean. -/
theorem claim4_out_of_range_navigation (s : Store) (i : Int) :
    (s.historyIndex = 0 → undo s = (s, .bool false)) ∧
    (s.historyIndex = s.history.length - 1 → redo s = (s, .bool false)) ∧
    (¬ (0 ≤ i ∧ i < (s.history.length : Int)) → jumpTo s i = (s, .undef)) := by
  refine ⟨fun h => ?_, fun h => ?_, fun h => ?_⟩
  · unfold undo
    rw [if_pos h]
  · unfold redo
    rw [if_pos (by omega)]
  · unfold jumpTo
    rw [if_neg h]

theorem claim4_out_of_range_navigation_witness :
    undo (Store.mk [("a", JVal.num 1)] [[("a", JVal.num 1)]] 0)
        = (Store.mk [("a", JVal.num 1)] [[("a", JVal.num 1)]] 0, .bool false) ∧
    redo (Store.mk [("a", JVal.num 1)] [[("a", JVal.num 1)]] 0)
        = (Store.mk [("a", JVal.num 1)] [[("a", JVal.num 1)]] 0, .bool false) ∧
    jumpTo (Store.mk [("a", JVal.num 1)] [[("a", JVal.num 1)]] 0) 5
        = (Store.mk [("a", JVal.num 1)] [[("a", JVal.num 1)]] 0, .undef) := by
  have h := claim4_out_of_range_navigation
    (Store.mk [("a", JVal.num 1)] [[("a", JVal.num 1)]] 0) 5
  exact ⟨h.1 rfl, h.2.1 rfl, h.2.2 (by decide)⟩

/-- C4 counterexample: out-of-range `jumpTo` does not report failure via
a boolean return value — it returns `undefined` (while indeed leaving
the store unchanged). -/
theorem claim4_jumpTo_returns_undefined_cex :
    (jumpTo (createStore [("a", JVal.num 1)]) 5).2 ≠ JsRet.bool false ∧
    (jumpTo (createStore [("a", JVal.num 1)]) 5).2 ≠ JsRet.bool true ∧
    (jumpTo (createStore [("a", JVal.num 1)]) 5).1 = createStore [("a", JVal.num 1)] :=
  ⟨by decide, by decide, rfl⟩

/-- C5: from a coherent store (the current history snapshot is the live
document and the index is in range — the store invariant maintained by
every non-`skipHistory` operation), a single change-producing `dispatch`
followed by `undo()` restores exactly the pre-dispatch document, and a
subsequent `redo()` restores exactly the post-dispatch document; both
navigations report success. -/
theorem claim5_undo_redo_round_trip (s : Store) (t : String) (p : JVal)
    (hlt : s.historyIndex < s.history.length)
    (hcur : s.history.getD s.historyIndex [] = s.state)
    (hch : stringifyObj s.state ≠ stringifyObj (dispatchCore s.state t p)) :
    (undo (dispatch s t p false)).1.state = s.state ∧
    (redo (undo (dispatch s t p false)).1).1.state = (dispatch s t p false).state ∧
    (undo (dispatch s t p false)).2 = .bool true ∧
    (redo (undo (dispatch s t p false)).1).2 = .bool true := by
  have htlen : (s.history.take (s.historyIndex + 1)).length = s.historyIndex + 1 := by
    rw [List.length_take]
    omega
  have hd := dispatch_changed s t p hch
  rw [hd]
  set P := pushHistory { s with state := dispatchCore s.state t p } with hP
  have hPidx : P.historyIndex = s.historyIndex + 1 := rfl
  have hPhist : P.history
      = s.history.take (s.historyIndex + 1) ++ [dispatchCore s.state t p] := rfl
  have hPstate : P.state = dispatchCore s.state t p := rfl
  have hPlen : P.history.length = s.historyIndex + 2 := by
    rw [hPhist, List.length_append, htlen]
    rfl
  have hu := undo_spec P (by rw [hPidx]; omega) (by rw [hPidx, hPlen]; omega)
  have hustate : (undo P).1.state = s.state := by
    rw [hu]
    show P.history.getD (P.historyIndex - 1) [] = s.state
    rw [hPidx, hPhist, Nat.add_sub_cancel,
      getD_append_left _ _ _ _ (by rw [htlen]; omega),
      getD_take _ _ _ _ (by omega)]
    exact hcur
  have huhist : (undo P).1.history = P.history := by rw [hu]
  have huidx : (undo P).1.historyIndex = s.historyIndex := by
    rw [hu]
    show P.historyIndex - 1 = s.historyIndex
    rw [hPidx]
    omega
  have hr := redo_spec (undo P).1
    (by rw [huidx, huhist, hPlen]; omega)
    (by rw [huidx, huhist, hPlen]; omega)
  refine ⟨hustate, ?_, by rw [hu], by rw [hr]⟩
  rw [hr]
  show (undo P).1.history.getD ((undo P).1.historyIndex + 1) [] = P.state
  rw [huidx, huhist, hPhist, hPstate]
  have hgd := getD_concat_self (s.history.take (s.historyIndex + 1))
    (dispatchCore s.state t p) ([] : StateDoc)
  rw [htlen] at hgd
  exact hgd

theorem claim5_undo_redo_round_trip_witness :
    (undo (dispatch (createStore [("k", JVal.num 0)]) "set-k" (JVal.num 1) false)).1.state
        = [("k", JVal.num 0)] ∧
    (redo (undo (dispatch (createStore [("k", JVal.num 0)])
        "set-k" (JVal.num 1) false)).1).1.state
        = [("k", JVal.num 1)] := by
  have h := claim5_undo_redo_round_trip (createStore [("k", JVal.num 0)])
    "set-k" (JVal.num 1) (by decide) rfl (by decide)
  exact ⟨h.1, h.2.1.trans rfl⟩

/-- C6: a history push truncates the sequence to the prefix
`[0..currentIndex]`, appends one snapshot of the current state, and sets
the index to the new last position; in particular a change-producing
dispatch while not at the tail discards the redo tail before appending
(`[S0,S1,S2]` at index 1 plus a new change gives `[S0,S1,S3]` — see the
witness). -/
theorem claim6_push_truncates (s : Store) (t : String) (p : JVal)
    (hlt : s.historyIndex < s.history.length)
    (hch : stringifyObj s.state ≠ stringifyObj (dispatchCore s.state t p)) :
    (pushHistory s).history = s.history.take (s.historyIndex + 1) ++ [s.state] ∧
    (pushHistory s).historyIndex = (pushHistory s).history.length - 1 ∧
    (dispatch s t p false).history
      = s.history.take (s.historyIndex + 1) ++ [dispatchCore s.state t p] := by
  refine ⟨rfl, ?_, ?_⟩
  · show s.historyIndex + 1 = (s.history.take (s.historyIndex + 1) ++ [s.state]).length - 1
    rw [List.length_append, List.length_take]
    simp
    omega
  · rw [dispatch_changed s t p hch]
    rfl

theorem claim6_push_truncates_witness :
    (dispatch (Store.mk [("k", JVal.num 1)]
        [[("k", JVal.num 0)], [("k", JVal.num 1)], [("k", JVal.num 2)]] 1)
      "set-k" (JVal.num 3) false).history
      = [[("k", JVal.num 0)], [("k", JVal.num 1)], [("k", JVal.num 3)]] := by
  have h := (claim6_push_truncates (Store.mk [("k", JVal.num 1)]
      [[("k", JVal.num 0)], [("k", JVal.num 1)], [("k", JVal.num 2)]] 1)
    "set-k" (JVal.num 3) (by decide) (by decide)).2.2
  exact h.trans rfl

/-- C7 (amended): over the dispatch sequence `set-x=1, set-x=1, set-x=2`
a watcher on `x` fires once per detected change from its own last-seen
value: twice (receiving 1 then 2) when `x` is initially 0 — only the
duplicate second `set-x=1` is suppressed — and exactly once (receiving
2) when `x` already equals 1 at installation.  In general a watcher step
fires exactly when the change detector (strict equality for primitives,
`JSON.stringify` structural equality for composites) distinguishes the
key's current value from the watcher's last-seen value, and the
last-seen value is updated on fire. -/
theorem claim7_watch_fires_on_change :
    (runWatched (createStore [("x", JVal.num 0)]) (watchInit [("x", JVal.num 0)] "x")
      [("set-x", .num 1), ("set-x", .num 1), ("set-x", .num 2)]).2.2
      = [JVal.num 1, JVal.num 2] ∧
    (runWatched (createStore [("x", JVal.num 1)]) (watchInit [("x", JVal.num 1)] "x")
      [("set-x", .num 1), ("set-x", .num 1), ("set-x", .num 2)]).2.2
      = [JVal.num 2] ∧
    ∀ (st : StateDoc) (w : Watcher),
      (watchStep st w).2
          = (if detectorChanged (objGet st w.key) w.prev then some (objGet st w.key)
             else none) ∧
      (watchStep st w).1.prev
          = (if detectorChanged (objGet st w.key) w.prev then objGet st w.key
             else w.prev) := by
  refine ⟨rfl, rfl, fun st w => ?_⟩
  unfold watchStep
  dsimp only
  split <;> simp_all

/-- C7 counterexample: with `x` initially 0 the watcher fires twice
across `set-x=1, set-x=1, set-x=2` (receiving 1 then 2), not exactly
once. -/
theorem claim7_duplicate_suppression_cex :
    ((runWatched (createStore [("x", JVal.num 0)]) (watchInit [("x", JVal.num 0)] "x")
      [("set-x", .num 1), ("set-x", .num 1), ("set-x", .num 2)]).2.2).length = 2 ∧
    (2 : Nat) ≠ 1 :=
  ⟨rfl, by decide⟩

/-- C8: a dispatch whose action name is not of the `set-<key>` form with
a non-empty key leaves the entire store (document, history, index)
unchanged, while the `{type, payload}` event is still delivered to every
registered global listener. -/
theorem claim8_unknown_action (s : Store) (t : String) (p : JVal) (skip : Bool)
    (L : List Nat) (f : Nat) (h : ¬ IsSetForm t) (hf : f ∈ L) :
    dispatch s t p skip = s ∧ (f, t, p) ∈ notifyInvocations L t p := by
  constructor
  · unfold dispatch
    rw [dispatchCore_not_set s.state t p h]
    simp
  · exact List.mem_map_of_mem _ hf

theorem claim8_unknown_action_witness :
    dispatch (createStore [("k", JVal.num 0)]) "increment" (JVal.num 1) false
        = createStore [("k", JVal.num 0)] ∧
    (4, "increment", JVal.num 1) ∈ notifyInvocations [4] "increment" (JVal.num 1) :=
  claim8_unknown_action (createStore [("k", JVal.num 0)]) "increment" (JVal.num 1) false
    [4] 4 (by decide) (by decide)

/-- C9: a change-producing dispatch with `skipHistory` set updates the
document read by `getState()` to the mutated state (which differs from
the previous one), while the history sequence and the current index are
left exactly as they were — the history does not grow. -/
theorem claim9_skipHistory (s : Store) (t : String) (p : JVal)
    (hch : stringifyObj s.state ≠ stringifyObj (dispatchCore s.state t p)) :
    (dispatch s t p true).state = dispatchCore s.state t p ∧
    stringifyObj (dispatch s t p true).state ≠ stringifyObj s.state ∧
    (dispatch s t p true).history = s.history ∧
    (dispatch s t p true).historyIndex = s.historyIndex := by
  have hstate : dispatch s t p true = { s with state := dispatchCore s.state t p } := by
    unfold dispatch
    simp
  rw [hstate]
  exact ⟨rfl, fun e => hch e.symm, rfl, rfl⟩

theorem claim9_skipHistory_witness :
    (dispatch (createStore [("k", JVal.num 0)]) "set-k" (JVal.num 1) true).state
        = [("k", JVal.num 1)] ∧
    (dispatch (createStore [("k", JVal.num 0)]) "set-k" (JVal.num 1) true).history
        = [[("k", JVal.num 0)], [("k", JVal.num 0)]] := by
  have h := claim9_skipHistory (createStore [("k", JVal.num 0)]) "set-k" (JVal.num 1)
    (by decide)
  exact ⟨h.1.trans rfl, h.2.2.1.trans rfl⟩

theorem countP_invocations (X : List Nat) (f : Nat) (t : String) (p : JVal) :
    (notifyInvocations X t p).countP (fun e => e.1 == f) = X.count f := by
  induction X with
  | nil => rfl
  | cons a rest ih =>
    simp only [notifyInvocations, List.map_cons, List.countP_cons, List.count_cons] at *
    rw [ih]

/-- C10: registering the same callback twice in the `Set`-backed listener
registry keeps a single registration, so a dispatch's fan-out invokes
that callback exactly once; the returned canceller removes the
registration entirely, after which a dispatch invokes it zero times. -/
theorem claim10_subscribe_idempotent (L : List Nat) (f : Nat) (t : String) (p : JVal)
    (hnd : L.Nodup) :
    ((notifyInvocations (subscribeAdd (subscribeAdd L f) f) t p).countP
        (fun e => e.1 == f)) = 1 ∧
    subscribeAdd (subscribeAdd L f) f = subscribeAdd L f ∧
    f ∉ cancelDelete (subscribeAdd (subscribeAdd L f) f) f ∧
    ((notifyInvocations (cancelDelete (subscribeAdd (subscribeAdd L f) f) f) t p).countP
        (fun e => e.1 == f)) = 0 := by
  have hmem : f ∈ subscribeAdd L f := by
    unfold subscribeAdd
    split
    · assumption
    · simp
  have hidem : subscribeAdd (subscribeAdd L f) f = subscribeAdd L f := by
    show (if f ∈ subscribeAdd L f then subscribeAdd L f else subscribeAdd L f ++ [f])
        = subscribeAdd L f
    rw [if_pos hmem]
  have hcount : (subscribeAdd L f).count f = 1 := by
    by_cases hfL : f ∈ L
    · unfold subscribeAdd
      rw [if_pos hfL]
      exact List.count_eq_one_of_mem hnd hfL
    · unfold subscribeAdd
      rw [if_neg hfL, List.count_append]
      rw [List.count_eq_zero.mpr hfL]
      simp
  have hzero : (cancelDelete (subscribeAdd L f) f).count f = 0 := by
    unfold cancelDelete
    rw [List.count_erase_self, hcount]
  refine ⟨?_, hidem, ?_, ?_⟩
  · rw [countP_invocations, hidem, hcount]
  · rw [hidem]
    exact List.count_eq_zero.mp hzero
  · rw [countP_invocations, hidem, hzero]

theorem claim10_subscribe_idempotent_witness :
    ((notifyInvocations (subscribeAdd (subscribeAdd [7] 3) 3) "evt" JVal.null).countP
        (fun e => e.1 == 3)) = 1 ∧
    subscribeAdd (subscribeAdd [7] 3) 3 = subscribeAdd [7] 3 ∧
    3 ∉ cancelDelete (subscribeAdd (subscribeAdd [7] 3) 3) 3 ∧
    ((notifyInvocations (cancelDelete (subscribeAdd (subscribeAdd [7] 3) 3) 3)
        "evt" JVal.null).countP (fun e => e.1 == 3)) = 0 :=
  claim10_subscribe_idempotent [7] 3 "evt" JVal.null (by decide)

end SRS
